import Mathlib

/-!
Shallow embedding of `sphinxcontrib/autophpdoc/__init__.py` (the autophpdoc
Sphinx extension) and proofs about the claims of its specification.

The Python module renders a phpdoc `structure.xml` tree into reStructuredText
lines.  We embed:

* the text utilities `trim`, `strip_braces`, `bs` (regex substitutions modelled
  as character-list scanners with the same left-to-right, greedy semantics);
* the option machinery `members_option`, `AutoDirective.get_opt` (Python
  truthiness and the `or` combinator made explicit over a `PyVal` type);
* the `Subject` rendering family (`append`, `nl`, `append_ns`, `append_desc`,
  `PHPArgument` … `PHPModule`), with the global `seen_namespaces` set passed as
  explicit state and Python exceptions (`trim(None)`, `None.startswith`)
  modelled as `Except Unit`;
* the file-selection loop of `AutoDirective.run` (pattern matching, the
  per-pattern path dictionary, lexicographic sort, the `visited` set).
-/

set_option autoImplicit false

namespace AutoPHPDoc

/-- Extension name, `NAME = 'autophpdoc'` in the source. -/
def NAME : String := "autophpdoc"

/-! ## Text utilities (`trim`, `strip_braces`, `bs`) -/

/-- Whitespace characters matched by Python's `\s` and `str.strip` (ASCII part). -/
def isWs (c : Char) : Bool :=
  c = ' ' || c = '\t' || c = '\n' || c = '\r' || c = '\x0b' || c = '\x0c'

/-- Left-to-right removal of every occurrence of the pattern
`RE_TRIM = re.compile (r'(</?p>)')`, i.e. of the substrings literal
paragraph-open and paragraph-close tags, as performed by `RE_TRIM.sub ('', text)`. -/
def removeP : List Char → List Char
  | '<' :: '/' :: 'p' :: '>' :: rest => removeP rest
  | '<' :: 'p' :: '>' :: rest => removeP rest
  | c :: rest => c :: removeP rest
  | [] => []

/-- Python `str.strip ()`: drop leading and trailing whitespace. -/
def pyStripL (l : List Char) : List Char :=
  ((l.dropWhile isWs).reverse.dropWhile isWs).reverse

/-- Helper for `RE_WS.sub(' ', ...)`: the flag records whether we are inside a
whitespace run whose single replacement space was already emitted. -/
def collapseGo : Bool → List Char → List Char
  | _, [] => []
  | inRun, c :: rest =>
    if isWs c then
      if inRun then collapseGo true rest
      else ' ' :: collapseGo true rest
    else c :: collapseGo false rest

/-- Substitution `RE_WS.sub (' ', text)` with `RE_WS = re.compile (r'(\s+)')`:
every maximal whitespace run becomes a single space. -/
def collapseWs (l : List Char) : List Char := collapseGo false l

/-- Source `trim (text)`:
`text = RE_TRIM.sub ('', text); return RE_WS.sub (' ', text.strip ())`. -/
def trim (s : String) : String :=
  ⟨collapseWs (pyStripL (removeP s.data))⟩

/-- Index of the last right parenthesis in a character list, if any. -/
def lastRParen : List Char → Option Nat
  | [] => none
  | c :: rest =>
    match lastRParen rest with
    | some k => some (k + 1)
    | none => if c = ')' then some 0 else none

/-- One match attempt of `RE_BRACES = re.compile (r'(\s*\(.*\))')` at the head
of `l`: skip the (maximal) whitespace run, require a left parenthesis, then the
greedy `.*\)` part extends up to the last right parenthesis before the next
newline (Python `.` does not match a newline).  Returns the total number of
characters consumed by the match. -/
def matchBraces (l : List Char) : Option Nat :=
  let ws := l.takeWhile isWs
  match l.drop ws.length with
  | '(' :: tail =>
    match lastRParen (tail.takeWhile (fun c => c ≠ '\n')) with
    | some k => some (ws.length + 1 + (k + 1))
    | none => none
  | _ => none

/-- The scanning loop of `RE_BRACES.sub ('', text)` with explicit fuel (the
fuel is always instantiated with the length of the list, which suffices since
every step consumes at least one character). -/
def stripBracesGo : Nat → List Char → List Char
  | 0, l => l
  | _ + 1, [] => []
  | fuel + 1, c :: rest =>
    match matchBraces (c :: rest) with
    | some n => stripBracesGo fuel ((c :: rest).drop n)
    | none => c :: stripBracesGo fuel rest

/-- Source `strip_braces (text)`: `return RE_BRACES.sub ('', text)`. -/
def strip_braces (s : String) : String :=
  ⟨stripBracesGo s.data.length s.data⟩

/-- Replacement of every backslash by a doubled backslash
(`link.replace ('\\', '\\\\')` — in the Python source these are the
one-character and two-character backslash strings). -/
def bsRep : List Char → List Char
  | [] => []
  | c :: rest => if c = '\\' then '\\' :: '\\' :: bsRep rest else c :: bsRep rest

/-- Source `bs (link)`: `link = link.lstrip ('\\'); return link.replace ('\\', '\\\\')`. -/
def bs (link : String) : String :=
  ⟨bsRep (link.data.dropWhile (fun c => c = '\\'))⟩

/-- Python `str.splitlines` restricted to the newline separator: `""` yields no
lines, a trailing newline does not produce a final empty line. -/
def slGo (cur : List Char) : List Char → List (List Char)
  | [] => if cur.isEmpty then [] else [cur.reverse]
  | '\n' :: rest => cur.reverse :: slGo [] rest
  | c :: rest => slGo (c :: cur) rest

/-- Python `text.splitlines ()` (newline separators). -/
def pySplitlines (s : String) : List String :=
  (slGo [] s.data).map (fun l => ⟨l⟩)

/-! ## Python option values and `AutoDirective.get_opt` -/

/-- The values that flow through the option machinery: `None`, booleans,
strings, and lists of strings (the result of `members_option`). -/
inductive PyVal where
  | none : PyVal
  | bool : Bool → PyVal
  | str : String → PyVal
  | list : List String → PyVal
deriving DecidableEq, Repr

/-- Python truthiness of a `PyVal`. -/
def truthy : PyVal → Bool
  | .none => false
  | .bool b => b
  | .str s => s ≠ ""
  | .list l => l ≠ []

/-- Python `a or b`: the left operand when truthy, otherwise the right one. -/
def pyOr (a b : PyVal) : PyVal := if truthy a then a else b

/-- Python `str.strip` on a string. -/
def pyStrip (s : String) : String := ⟨pyStripL s.data⟩

/-- Source `members_option (arg)`: `None`/`True` become `True`, `False` stays,
anything else (the option's string argument) is split on commas and stripped. -/
def members_option : PyVal → PyVal
  | .none => .bool true
  | .bool true => .bool true
  | .bool false => .bool false
  | .str s => .list ((s.splitOn ",").map pyStrip)
  | .list l => .list l

/-- Source `AutoDirective.get_opt` without the `required` check:
`self.options.get (name) or getattr (self.env.config, "%s_%s" % (NAME, name))`.
`dopt` is the directive-level option value (`PyVal.none` when the option is
absent), `copt` the build-wide configuration value. -/
def getOptF (dopt copt : PyVal) : PyVal := pyOr dopt copt

/-- Source `AutoDirective.get_opt (name, required)`: raises `AutoPHPDocError`
(modelled as `Except.error` carrying the formatted message) when `required`
holds and the combined value is falsy. -/
def getOpt (name : String) (dopt copt : PyVal) (required : Bool) : Except String PyVal :=
  let opt := getOptF dopt copt
  if required && !truthy opt then
    .error (":" ++ name ++ ": option required in directive (or set "
      ++ NAME ++ "_" ++ name ++ " in conf.py.)")
  else
    .ok opt

/-! ## The structural tree

Each structure carries exactly the attributes and children the renderers read
through `xpath`.  `filename` models the value of the
`ancestor-or-self::file/@path` query (the path of the enclosing file node),
`line` the node's own `@line` attribute.  Absent attributes and children are
`Option.none`; reads through `xpath_str` fall back to the query's default. -/

/-- A `tag[@name='see']` node: `@description` and `@link` attributes. -/
structure SeeTag where
  filename : Option String
  line : Option Nat
  description : Option String
  link : Option String
deriving DecidableEq, Repr

/-- A `tag[@name='param']` node: `@type`, `@variable`, `@description`. -/
structure ParamTag where
  filename : Option String
  line : Option Nat
  type : Option String
  varName : Option String
  description : Option String
deriving DecidableEq, Repr

/-- A `tag[@name='return']` node: `@type` and `@description`. -/
structure ReturnTag where
  filename : Option String
  line : Option Nat
  type : Option String
  description : Option String
deriving DecidableEq, Repr

/-- A `tag[@name='throws']` node: `@type` and `@description`. -/
structure ThrowsTag where
  filename : Option String
  line : Option Nat
  type : Option String
  description : Option String
deriving DecidableEq, Repr

/-- A `docblock` node: its `@line`, `description` and `long-description`
children, the `@type` attributes of its `tag[@name='var']` children (in
document order), and its `param`/`return`/`throws`/`see` tags, each list in
document order. -/
structure Docblock where
  line : Option Nat
  description : Option String
  longDescription : Option String
  varTypes : List String
  params : List ParamTag
  returns : List ReturnTag
  throws : List ThrowsTag
  sees : List SeeTag
deriving DecidableEq, Repr

/-- A leaf entity node (constant or property): the attributes and children the
`Subject` getters read. -/
structure PNode where
  filename : Option String
  line : Option Nat
  nsAttr : Option String
  name : Option String
  value : Option String
  docblock : Option Docblock
deriving DecidableEq, Repr

/-- A `function` or `method` node: a `PNode` plus the `argument/name` texts. -/
structure CallableNode where
  p : PNode
  args : List String
deriving DecidableEq, Repr

/-- A `class` node with its `property` and `method` children in document order. -/
structure ClassNode where
  p : PNode
  properties : List PNode
  methods : List CallableNode
deriving DecidableEq, Repr

/-- A `file` node: its `@path`, `@line`, `docblock`, and its `constant`,
`function` and `class` children in document order. -/
structure FileNode where
  path : Option String
  line : Option Nat
  docblock : Option Docblock
  constants : List PNode
  functions : List CallableNode
  classes : List ClassNode
deriving DecidableEq, Repr

/-- Source `Subject.xpath_str (query, default)`: the stringified, stripped
first query result, or the default when the query matches nothing. -/
def xpathStrD (found : Option String) (default : String) : String :=
  match found with
  | Option.none => default
  | some s => pyStrip s

/-- The directive object as the renderers see it: the four cross-reference
name sets built in `AutoDirective.run` and the option values consulted by
`get_opt` (directive-level value, `PyVal.none` when absent, and the build-wide
configuration value). -/
structure Directive where
  functions : List String
  classes : List String
  methods : List String
  properties : List String
  opt_members : PyVal
  conf_members : PyVal
  opt_title : PyVal
  conf_title : PyVal
  opt_structure_xml : PyVal
  conf_structure_xml : PyVal
deriving DecidableEq

/-- Source `Subject.get_filename`: `xpath_str ('ancestor-or-self::file/@path',
'filename unknown')`. -/
def PNode.getFilename (p : PNode) : String := xpathStrD p.filename "filename unknown"

/-- Source `Subject.get_lineno`: the node's own `@line` attribute, else
`int (xpath_str ('docblock/@line', '0'))`. -/
def PNode.getLineno (p : PNode) : Nat :=
  match p.line with
  | some l => l
  | Option.none =>
    match p.docblock.bind Docblock.line with
    | some l => l
    | Option.none => 0

/-- Source `Subject.get_description`: `xpath_str ('docblock/description', '')`. -/
def PNode.getDescription (p : PNode) : String :=
  xpathStrD (p.docblock.bind Docblock.description) ""

/-- Source `Subject.get_long_description`. -/
def PNode.getLongDescription (p : PNode) : String :=
  xpathStrD (p.docblock.bind Docblock.longDescription) ""

/-- Source `Subject.get_name`: `xpath_str ('name', '')`. -/
def PNode.getName (p : PNode) : String := xpathStrD p.name ""

/-- Source `Subject.get_value`: `xpath_str ('value', '')`. -/
def PNode.getValue (p : PNode) : String := xpathStrD p.value ""

/-- Source `Subject.get_type`: `xpath_str ('docblock/tag[@name="var"]/@type', '')`. -/
def PNode.getType (p : PNode) : String :=
  xpathStrD ((p.docblock.map Docblock.varTypes).getD []).head? ""

/-- Source `Subject.get_namespace`: `xpath_str ("@namespace", '')`. -/
def PNode.getNamespace (p : PNode) : String := xpathStrD p.nsAttr ""

/-! ## The emitter -/

/-- The `StringList` buffer: (text, source) pairs, append-only. -/
abbrev Content := List (String × String)

/-- Source tag `'%s:%d:<%s>' % (filename, line, NAME)` attached to every line
appended through `Subject.append`. -/
def sourceTag (fn : String) (ln : Nat) : String :=
  fn ++ ":" ++ toString ln ++ ":<" ++ NAME ++ ">"

/-- Python `' ' * indent`. -/
def indentStr (n : Nat) : String := ⟨List.replicate n ' '⟩

/-- Source `Subject.splitlines`: indent every line of the text. -/
def Subject.splitlines (indent : Nat) (text : String) : List String :=
  (pySplitlines text).map (fun s => indentStr indent ++ s)

/-- Source `Subject.append (text, content)` for a string argument: split into
indented lines and append each with its provenance tag, the line number
counting up from the node's source line. -/
def Subject.append (fn : String) (sourceline : Nat) (indent : Nat) (text : String)
    (content : Content) : Content :=
  content ++ (Subject.splitlines indent text).enum.map
    (fun e => (e.2, sourceTag fn (sourceline + e.1)))

/-- Source `Subject.nl`: `content.append ('', '')`. -/
def Subject.nl (content : Content) : Content := content ++ [("", "")]

/-- Source `Subject.underscore (text, char, content)`. -/
def Subject.underscore (fn : String) (ln : Nat) (indent : Nat) (text : String) (ch : Char)
    (content : Content) : Content :=
  Subject.nl (Subject.append fn ln indent ⟨List.replicate text.length ch⟩
    (Subject.append fn ln indent text content))

/-- Source `Subject.append_ns (content)`: emit the namespace-declaration line;
append a `:noindex:` marker when the namespace was already seen, otherwise
register it in the (explicitly threaded) `seen_namespaces` registry. -/
def Subject.appendNs (p : PNode) (indent : Nat) (seen : List String) (content : Content) :
    List String × Content :=
  let ns := p.getNamespace
  let fn := p.getFilename
  let ln := p.getLineno
  let content := Subject.append fn ln indent (".. php:namespace:: " ++ ns) content
  if ns ∈ seen then
    (seen, Subject.nl (Subject.append fn ln indent "   :noindex:" content))
  else
    (ns :: seen, Subject.nl content)

/-- Source `Subject.xref (link)`: classify the identifier through the four
name sets in fixed precedence order and produce the typed role, or the bare
escaped identifier for the plain-reference fallback. -/
def Subject.xref (d : Directive) (link : String) : String :=
  if link ≠ "" then
    let what :=
      if link ∈ d.classes then "php:class"
      else if link ∈ d.functions then "php:func"
      else if link ∈ d.methods then "php:meth"
      else if link ∈ d.properties then "php:attr"
      else "ref"
    let link := bs link
    if what ≠ "ref" then ":" ++ what ++ ":`" ++ link ++ "`" else link
  else ""

/-- Python `trim (x)` applied to the result of `node.get (attr)`: raises
`TypeError` (modelled as `Except.error ()`) when the attribute is absent,
because `re.sub` rejects `None`. -/
def pyTrim : Option String → Except Unit String
  | Option.none => .error ()
  | some s => .ok (trim s)

/-- Filename of a tag node (`ancestor-or-self::file/@path` with default). -/
def tagFilename (f : Option String) : String := xpathStrD f "filename unknown"

/-- Line number of a tag node: its `@line` attribute, else 0 (a tag node has
no `docblock` child, so the fallback query yields the default `'0'`). -/
def tagLineno (l : Option Nat) : Nat := l.getD 0

/-- Source `PHPSee.run`: an absent `@link` makes `link.startswith` raise
(`AttributeError` on `None`), an absent `@description` makes `trim` raise. -/
def PHPSee.run (d : Directive) (t : SeeTag) (indent : Nat) (content : Content) :
    Except Unit Content := do
  let fn := tagFilename t.filename
  let ln := tagLineno t.line
  let desc ← pyTrim t.description
  let link ← match t.link with
    | Option.none => Except.error ()
    | some l => Except.ok l
  if link.startsWith "http" then
    pure (Subject.nl (Subject.append fn ln indent ("See: " ++ link ++ " " ++ desc) content))
  else
    pure (Subject.nl
      (Subject.append fn ln indent ("See: " ++ Subject.xref d link ++ " " ++ desc) content))

/-- Source `Subject.append_desc (content)`: short description, blank line,
long description, blank line, then one `PHPSee` block (plus blank line) per
`see` tag of the docblock. -/
def Subject.appendDesc (d : Directive) (fn : String) (ln : Nat) (indent : Nat)
    (db : Option Docblock) (content : Content) : Except Unit Content := do
  let content := Subject.nl (Subject.append fn ln indent
    (xpathStrD (db.bind Docblock.description) "") content)
  let content := Subject.nl (Subject.append fn ln indent
    (xpathStrD (db.bind Docblock.longDescription) "") content)
  ((db.map Docblock.sees).getD []).foldlM (fun c t => do
    let c ← PHPSee.run d t indent c
    pure (Subject.nl c)) content

/-- Source `PHPArgument.run`: one `:param type name: description` line; each
of the three attributes goes through `trim` and an absent one raises. -/
def PHPArgument.run (t : ParamTag) (indent : Nat) (content : Content) :
    Except Unit Content := do
  let name ← pyTrim t.varName
  let type_ ← pyTrim t.type
  let desc ← pyTrim t.description
  pure (Subject.append (tagFilename t.filename) (tagLineno t.line) indent
    (":param " ++ bs type_ ++ " " ++ name ++ ": " ++ desc) content)

/-- Source `PHPReturn.run`: a `:returns:` line when the description is
non-empty and a `:rtype:` line when the type is non-empty, independently. -/
def PHPReturn.run (d : Directive) (t : ReturnTag) (indent : Nat) (content : Content) :
    Except Unit Content := do
  let fn := tagFilename t.filename
  let ln := tagLineno t.line
  let type_ ← pyTrim t.type
  let desc ← pyTrim t.description
  let content := if desc ≠ "" then
    Subject.append fn ln indent (":returns: " ++ desc) content else content
  pure (if type_ ≠ "" then
    Subject.append fn ln indent (":rtype: " ++ Subject.xref d type_) content else content)

/-- Source `PHPThrows.run`: one `:raises type: description` line; the absent
description is guarded by `or ''` in the source, the type is not. -/
def PHPThrows.run (d : Directive) (t : ThrowsTag) (indent : Nat) (content : Content) :
    Except Unit Content := do
  let type_ ← pyTrim t.type
  let desc := trim (t.description.getD "")
  pure (Subject.append (tagFilename t.filename) (tagLineno t.line) indent
    (":raises " ++ Subject.xref d type_ ++ ": " ++ desc) content)

/-- Source `PHPVariable.run`: a parenthesized cross-referenced type hint when
a `var` tag type exists, then the description block. -/
def PHPVariable.run (d : Directive) (p : PNode) (indent : Nat) (content : Content) :
    Except Unit Content := do
  let type_ := p.getType
  let fn := p.getFilename
  let ln := p.getLineno
  let content := if type_ ≠ "" then
    Subject.append fn ln indent ("(" ++ Subject.xref d type_ ++ ")") content else content
  Subject.appendDesc d fn ln indent p.docblock content

/-- Source `PHPConstant.run`: namespace block, `php:const` declaration, value
line at increased indentation, then the inherited variable rendering. -/
def PHPConstant.run (d : Directive) (p : PNode) (indent : Nat) (seen : List String)
    (content : Content) : Except Unit (List String × Content) := do
  let fn := p.getFilename
  let ln := p.getLineno
  let sc := Subject.appendNs p indent seen content
  let content := Subject.nl (Subject.append fn ln indent
    (".. php:const:: " ++ p.getName) sc.2)
  let indent := indent + 3
  let content := Subject.nl (Subject.append fn ln indent p.getValue content)
  let content ← PHPVariable.run d p indent content
  pure (sc.1, content)

/-- Source `PHPProperty.run`: `php:attr` declaration then the inherited
variable rendering at increased indentation (no namespace block). -/
def PHPProperty.run (d : Directive) (p : PNode) (indent : Nat) (content : Content) :
    Except Unit Content := do
  let fn := p.getFilename
  let ln := p.getLineno
  let content := Subject.nl (Subject.append fn ln indent
    (".. php:attr:: " ++ p.getName) content)
  PHPVariable.run d p (indent + 3) content

/-- Source `PHPCallable.get_signature`: `name (arg1, arg2, ...)` from the
`argument/name` texts. -/
def CallableNode.getSignature (c : CallableNode) : String :=
  c.p.getName ++ " (" ++ String.intercalate ", " c.args ++ ")"

/-- Source `PHPCallable.run`: increase indentation, description block, then
all `param`, all `return`, all `throws` tags in this fixed order. -/
def PHPCallable.run (d : Directive) (c : CallableNode) (indent : Nat) (content : Content) :
    Except Unit Content := do
  let indent := indent + 3
  let fn := c.p.getFilename
  let ln := c.p.getLineno
  let content ← Subject.appendDesc d fn ln indent c.p.docblock content
  let content ← ((c.p.docblock.map Docblock.params).getD []).foldlM
    (fun cc t => PHPArgument.run t indent cc) content
  let content ← ((c.p.docblock.map Docblock.returns).getD []).foldlM
    (fun cc t => PHPReturn.run d t indent cc) content
  let content ← ((c.p.docblock.map Docblock.throws).getD []).foldlM
    (fun cc t => PHPThrows.run d t indent cc) content
  pure (Subject.nl content)

/-- Source `PHPFunction.run`: namespace block, `php:function` declaration
with signature, then the callable rendering. -/
def PHPFunction.run (d : Directive) (c : CallableNode) (indent : Nat) (seen : List String)
    (content : Content) : Except Unit (List String × Content) := do
  let fn := c.p.getFilename
  let ln := c.p.getLineno
  let sc := Subject.appendNs c.p indent seen content
  let content := Subject.nl (Subject.append fn ln indent
    (".. php:function:: " ++ c.getSignature) sc.2)
  let content ← PHPCallable.run d c indent content
  pure (sc.1, content)

/-- Source `PHPMethod.run`: `php:method` declaration with signature, then the
callable rendering (no namespace block). -/
def PHPMethod.run (d : Directive) (c : CallableNode) (indent : Nat) (content : Content) :
    Except Unit Content := do
  let fn := c.p.getFilename
  let ln := c.p.getLineno
  let content := Subject.nl (Subject.append fn ln indent
    (".. php:method:: " ++ c.getSignature) content)
  PHPCallable.run d c indent content

/-- Source `PHPClass.run`: namespace block, `php:class` declaration,
description block at increased indentation, then each property and each
method in document order. -/
def PHPClass.run (d : Directive) (k : ClassNode) (indent : Nat) (seen : List String)
    (content : Content) : Except Unit (List String × Content) := do
  let fn := k.p.getFilename
  let ln := k.p.getLineno
  let sc := Subject.appendNs k.p indent seen content
  let content := Subject.nl (Subject.append fn ln indent
    (".. php:class:: " ++ k.p.getName) sc.2)
  let indent := indent + 3
  let content ← Subject.appendDesc d fn ln indent k.p.docblock content
  let content ← k.properties.foldlM (fun cc q => PHPProperty.run d q indent cc) content
  let content ← k.methods.foldlM (fun cc m => PHPMethod.run d m indent cc) content
  pure (sc.1, Subject.nl content)

/-- Index of the last occurrence of a character in a list, if any. -/
def lastIdxOf (a : Char) : List Char → Option Nat
  | [] => Option.none
  | c :: rest =>
    match lastIdxOf a rest with
    | some k => some (k + 1)
    | Option.none => if c = a then some 0 else Option.none

/-- Python `os.path.splitext (p)[0]` (posix rules: the extension starts at the
last dot after the last slash, unless every basename character before that dot
is itself a dot). -/
def splitextRoot (p : String) : String :=
  let l := p.data
  let fi := match lastIdxOf '/' l with
    | some si => si + 1
    | Option.none => 0
  match lastIdxOf '.' l with
  | Option.none => p
  | some di =>
    if fi ≤ di then
      if (List.range di).any (fun j => fi ≤ j && l.getD j '.' ≠ '.') then
        ⟨l.take di⟩
      else p
    else p

/-- Python `s.replace (a, b)` for one-character strings. -/
def pyReplaceChar (s : String) (a b : Char) : String :=
  ⟨s.data.map (fun c => if c = a then b else c)⟩

/-- Source `PHPModule.run`: module declaration derived from the file path,
optional underlined title, description block, then — only when the resolved
`members` option is the boolean `True` (the source tests `is True`) — the
`constant`, `function` and `class` children in document order. -/
def PHPModule.run (d : Directive) (m : FileNode) (indent : Nat) (seen : List String)
    (content : Content) : Except Unit (List String × Content) := do
  let filename := xpathStrD m.path ""
  let module := pyReplaceChar (splitextRoot filename) '/' '.'
  let fn := xpathStrD m.path "filename unknown"
  let ln := match m.line with
    | some l => l
    | Option.none =>
      match m.docblock.bind Docblock.line with
      | some l => l
      | Option.none => 0
  let content := Subject.nl (Subject.append fn ln indent (".. module:: " ++ module) content)
  let content := if truthy (getOptF d.opt_title d.conf_title) then
    Subject.nl (Subject.underscore fn ln indent filename '-' content)
  else content
  let content ← Subject.appendDesc d fn ln indent m.docblock content
  let sc ←
    if getOptF d.opt_members d.conf_members = PyVal.bool true then do
      let sc ← m.constants.foldlM (fun (sc : List String × Content) q =>
        PHPConstant.run d q indent sc.1 sc.2) (seen, content)
      let sc ← m.functions.foldlM (fun (sc : List String × Content) f =>
        PHPFunction.run d f indent sc.1 sc.2) sc
      let sc ← m.classes.foldlM (fun (sc : List String × Content) k =>
        PHPClass.run d k indent sc.1 sc.2) sc
      pure sc
    else pure (seen, content)
  pure (sc.1, Subject.nl sc.2)

/-! ## The selection loop of `AutoDirective.run` -/

/-- The `@path` attribute used both by the pattern test and as the dictionary
key (`node.get ('path')`; file nodes of a `structure.xml` carry it). -/
def pathKey (f : FileNode) : String := f.path.getD ""

/-- One `filenodes[path] = node` assignment: overwrite the value of an
existing key, otherwise add the binding. -/
def dictInsert (dct : List (String × FileNode)) (k : String) (v : FileNode) :
    List (String × FileNode) :=
  if dct.any (fun e => e.1 = k) then dct.map (fun e => if e.1 = k then (k, v) else e)
  else dct ++ [(k, v)]

/-- The `filenodes` dictionary built over one pattern's matches: later
assignments to the same path overwrite earlier ones. -/
def buildDict (fs : List FileNode) : List (String × FileNode) :=
  fs.foldl (fun dct f => dictInsert dct (pathKey f) f) []

/-- Ordering of dictionary entries by key. -/
def keyLE (a b : String × FileNode) : Prop := a.1 ≤ b.1

instance : DecidableRel keyLE := fun a b => inferInstanceAs (Decidable (a.1 ≤ b.1))

/-- Python `sorted (filenodes.keys ())` followed by looking each node up:
since the keys are unique this equals sorting the entries by key. -/
def sortEntries (dct : List (String × FileNode)) : List (String × FileNode) :=
  List.insertionSort keyLE dct

/-- The inner loop over the sorted paths: a path already in `visited` is
skipped, otherwise it is added to `visited` and its node is rendered. -/
def visitFiles : List (String × FileNode) → List String → List String × List (String × FileNode)
  | [], visited => (visited, [])
  | (p, n) :: rest, visited =>
    if p ∈ visited then visitFiles rest visited
    else
      let r := visitFiles rest (p :: visited)
      (r.1, (p, n) :: r.2)

/-- Processing of one pattern: filter the file nodes by the pattern test on
their path, build the path dictionary, and walk the sorted entries. -/
def processPattern (test : String → Bool) (files : List FileNode) (visited : List String) :
    List String × List (String × FileNode) :=
  visitFiles (sortEntries (buildDict (files.filter (fun f => test (pathKey f))))) visited

/-- The loop over `self.arguments`: patterns in the given order, the
`visited` set threaded through. -/
def processArgs : List (String → Bool) → List FileNode → List String →
    List String × List (String × FileNode)
  | [], _, visited => (visited, [])
  | t :: ts, files, visited =>
    let r := processPattern t files visited
    let r' := processArgs ts files r.1
    (r'.1, r.2 ++ r'.2)

/-- The file-selection portion of `AutoDirective.run`: the ordered list of
(path, node) pairs that get rendered, with `visited = set ()` initially. -/
def selectFiles (tests : List (String → Bool)) (files : List FileNode) :
    List (String × FileNode) :=
  (processArgs tests files []).2

/-- Line 415 of the source: `structure_xml = self.get_opt ('structure_xml')` —
the call does not pass `required = True`. -/
def AutoDirective.runStructureXml (d : Directive) : Except String PyVal :=
  getOpt "structure_xml" d.opt_structure_xml d.conf_structure_xml false

/-! ## Helper predicates used by the theorems -/

instance instDecEqExcept {ε α : Type} [DecidableEq ε] [DecidableEq α] :
    DecidableEq (Except ε α) := fun x y =>
  match x, y with
  | .ok a, .ok b =>
    if h : a = b then isTrue (by rw [h]) else isFalse (by simp [h])
  | .error a, .error b =>
    if h : a = b then isTrue (by rw [h]) else isFalse (by simp [h])
  | .ok _, .error _ => isFalse (by simp)
  | .error _, .ok _ => isFalse (by simp)

/-- Head character, if any, is not whitespace. -/
def headNonWs : List Char → Bool
  | [] => true
  | c :: _ => !isWs c

/-- Last character, if any, is not whitespace. -/
def lastNonWs : List Char → Bool
  | [] => true
  | [c] => !isWs c
  | _ :: c :: rest => lastNonWs (c :: rest)

/-- The string is in collapsed form: every whitespace character is a single
space followed by a non-whitespace character (the shape of `RE_WS.sub` output). -/
def collapsedB : List Char → Bool
  | [] => true
  | c :: rest =>
    if isWs c then (c == ' ') && headNonWs rest && collapsedB rest
    else collapsedB rest

/-- A match of `RE_BRACES` ending exactly at the end of the string: the claim
C8's notion of a trailing parenthesized suffix. -/
def hasParenSuffix (s : String) : Bool :=
  (List.range (s.data.length + 1)).any
    (fun i => matchBraces (s.data.drop i) == some (s.data.length - i))

/-! ## Concrete fixtures used by witnesses and counterexamples -/

/-- A directive whose resolved `members` option is the boolean `True`. -/
def exDirectiveTrue : Directive :=
  { functions := [], classes := [], methods := [], properties := []
    opt_members := .bool true, conf_members := .bool false
    opt_title := .none, conf_title := .bool false
    opt_structure_xml := .none, conf_structure_xml := .str "doc/structure.xml" }

/-- The same directive with `members` given as an explicit allow-list. -/
def exDirectiveList : Directive :=
  { exDirectiveTrue with opt_members := .list ["FOO"] }

/-- A directive whose class set and function set share the identifier `Foo`. -/
def exDirectiveXref : Directive :=
  { exDirectiveTrue with classes := ["Foo"], functions := ["Foo"] }

/-- A directive with the `structure_xml` option empty at both levels. -/
def exDirectiveEmpty : Directive :=
  { exDirectiveTrue with opt_structure_xml := .str "", conf_structure_xml := .str "" }

/-- A `constant` node (with namespace, name and value, no docblock). -/
def exConstant : PNode :=
  { filename := some "src/x.php", line := some 5, nsAttr := some "NS"
    name := some "FOO", value := some "1", docblock := Option.none }

/-- A `file` node holding the one constant. -/
def exModule : FileNode :=
  { path := some "src/x.php", line := Option.none, docblock := Option.none
    constants := [exConstant], functions := [], classes := [] }

/-- File node `src/a.php` (no children). -/
def exFileA : FileNode :=
  { path := some "src/a.php", line := Option.none, docblock := Option.none
    constants := [], functions := [], classes := [] }

/-- File node `src/b.php` (no children). -/
def exFileB : FileNode :=
  { path := some "src/b.php", line := Option.none, docblock := Option.none
    constants := [], functions := [], classes := [] }

/-- The pattern regex anchored to exactly `src/a.php`. -/
def exTest1 : String → Bool := fun s => s = "src/a.php"

/-- The pattern regex matching every path under `src/`. -/
def exTest2 : String → Bool := fun s => s.startsWith "src/"

/-! ## Lemmas on whitespace collapsing and stripping -/

theorem collapseGo_cons_ws_true (c : Char) (rest : List Char) (h : isWs c = true) :
    collapseGo true (c :: rest) = collapseGo true rest := by
  simp [collapseGo, h]

theorem collapseGo_cons_ws_false (c : Char) (rest : List Char) (h : isWs c = true) :
    collapseGo false (c :: rest) = ' ' :: collapseGo true rest := by
  simp [collapseGo, h]

theorem collapseGo_cons_nonws (b : Bool) (c : Char) (rest : List Char) (h : isWs c = false) :
    collapseGo b (c :: rest) = c :: collapseGo false rest := by
  simp [collapseGo, h]

theorem headNonWs_collapseGo_true (l : List Char) : headNonWs (collapseGo true l) = true := by
  induction l with
  | nil => rfl
  | cons c rest ih =>
    by_cases h : isWs c
    · simpa [collapseGo, h] using ih
    · simp [collapseGo, h, headNonWs]

theorem collapsedB_collapseGo (b : Bool) (l : List Char) :
    collapsedB (collapseGo b l) = true := by
  induction l generalizing b with
  | nil => rfl
  | cons c rest ih =>
    by_cases h : isWs c
    · cases b with
      | true => simpa [collapseGo, h] using ih true
      | false =>
        simp only [collapseGo, h, if_true, if_false]
        simp [collapsedB, headNonWs_collapseGo_true, ih true, isWs]
    · simpa [collapseGo, h, collapsedB] using ih false

theorem collapseGo_false_ne_nil (c : Char) (rest : List Char) :
    collapseGo false (c :: rest) ≠ [] := by
  by_cases h : isWs c <;> simp [collapseGo, h]

theorem exists_nonWs_of_lastNonWs (c : Char) (rest : List Char)
    (h : lastNonWs (c :: rest) = true) : ∃ x ∈ c :: rest, isWs x = false := by
  induction rest generalizing c with
  | nil =>
    refine ⟨c, List.mem_singleton_self c, ?_⟩
    simpa [lastNonWs] using h
  | cons d rest' ih =>
    have h' : lastNonWs (d :: rest') = true := h
    obtain ⟨x, hx, hw⟩ := ih d h'
    exact ⟨x, List.mem_cons_of_mem c hx, hw⟩

theorem collapseGo_true_ne_nil (l : List Char) (h : ∃ x ∈ l, isWs x = false) :
    collapseGo true l ≠ [] := by
  induction l with
  | nil => simp at h
  | cons c rest ih =>
    by_cases hc : isWs c
    · have h' : ∃ x ∈ rest, isWs x = false := by
        obtain ⟨x, hx, hw⟩ := h
        rcases List.mem_cons.mp hx with rfl | hx'
        · rw [hc] at hw; cases hw
        · exact ⟨x, hx', hw⟩
      simpa [collapseGo, hc] using ih h'
    · simp [collapseGo, hc]

theorem lastNonWs_cons_of_ne_nil (c : Char) (X : List Char) (h : X ≠ []) :
    lastNonWs (c :: X) = lastNonWs X := by
  cases X with
  | nil => exact absurd rfl h
  | cons d r => rfl

theorem lastNonWs_collapseGo (l : List Char) (b : Bool) (h : lastNonWs l = true) :
    lastNonWs (collapseGo b l) = true := by
  induction l generalizing b with
  | nil => cases b <;> rfl
  | cons c rest ih =>
    cases rest with
    | nil =>
      have hc : isWs c = false := by simpa [lastNonWs] using h
      cases b <;> simp [collapseGo, hc, lastNonWs]
    | cons d r' =>
      have h' : lastNonWs (d :: r') = true := h
      by_cases hc : isWs c
      · cases b with
        | true =>
          rw [collapseGo_cons_ws_true c _ hc]
          exact ih true h'
        | false =>
          have hne : collapseGo true (d :: r') ≠ [] :=
            collapseGo_true_ne_nil _ (exists_nonWs_of_lastNonWs d r' h')
          rw [collapseGo_cons_ws_false c _ hc, lastNonWs_cons_of_ne_nil _ _ hne]
          exact ih true h'
      · have hc' : isWs c = false := by simpa using hc
        have hne : collapseGo false (d :: r') ≠ [] := collapseGo_false_ne_nil d r'
        rw [collapseGo_cons_nonws b c _ hc', lastNonWs_cons_of_ne_nil _ _ hne]
        exact ih false h'

theorem collapseGo_id (l : List Char) (h : collapsedB l = true) :
    collapseGo false l = l ∧ (headNonWs l = true → collapseGo true l = l) := by
  induction l with
  | nil => exact ⟨rfl, fun _ => rfl⟩
  | cons c rest ih =>
    by_cases hc : isWs c
    · have h' : (c == ' ') = true ∧ headNonWs rest = true ∧ collapsedB rest = true := by
        simpa [collapsedB, hc, Bool.and_assoc] using h
      obtain ⟨hsp, hh, hcol⟩ := h'
      have hc' : c = ' ' := by simpa using hsp
      obtain ⟨ih1, ih2⟩ := ih hcol
      constructor
      · rw [collapseGo_cons_ws_false c _ hc, ih2 hh, hc']
      · intro hh2
        exfalso
        simp [headNonWs, hc] at hh2
    · have hc' : isWs c = false := by simpa using hc
      have h' : collapsedB rest = true := by simpa [collapsedB, hc'] using h
      obtain ⟨ih1, ih2⟩ := ih h'
      constructor
      · rw [collapseGo_cons_nonws false c _ hc', ih1]
      · intro _
        rw [collapseGo_cons_nonws true c _ hc', ih1]

theorem collapseWs_idem (l : List Char) : collapseWs (collapseWs l) = collapseWs l :=
  (collapseGo_id _ (collapsedB_collapseGo false l)).1

theorem headNonWs_dropWhile (l : List Char) : headNonWs (l.dropWhile isWs) = true := by
  induction l with
  | nil => rfl
  | cons c rest ih =>
    by_cases h : isWs c
    · simpa [List.dropWhile_cons, h] using ih
    · simp [List.dropWhile_cons, h, headNonWs]

theorem dropWhile_eq_self_of_headNonWs (m : List Char) (h : headNonWs m = true) :
    m.dropWhile isWs = m := by
  cases m with
  | nil => rfl
  | cons c rest =>
    have : isWs c = false := by simpa [headNonWs] using h
    simp [List.dropWhile_cons, this]

theorem headNonWs_append (X Y : List Char) (h : X ≠ []) :
    headNonWs (X ++ Y) = headNonWs X := by
  cases X with
  | nil => exact absurd rfl h
  | cons c rest => rfl

theorem headNonWs_reverse (l : List Char) : headNonWs l.reverse = lastNonWs l := by
  induction l with
  | nil => rfl
  | cons c rest ih =>
    cases rest with
    | nil => simp [headNonWs, lastNonWs]
    | cons d r' =>
      have hne : (d :: r').reverse ≠ [] := by simp
      calc headNonWs (c :: d :: r').reverse
          = headNonWs ((d :: r').reverse ++ [c]) := by simp
        _ = headNonWs (d :: r').reverse := headNonWs_append _ _ hne
        _ = lastNonWs (d :: r') := ih
        _ = lastNonWs (c :: d :: r') := rfl

theorem lastNonWs_dropWhile (p : Char → Bool) (X : List Char) (h : lastNonWs X = true) :
    lastNonWs (X.dropWhile p) = true := by
  induction X with
  | nil => rfl
  | cons c rest ih =>
    by_cases hp : p c
    · cases rest with
      | nil => simp [List.dropWhile_cons, hp, lastNonWs]
      | cons d r' =>
        have h' : lastNonWs (d :: r') = true := h
        simpa [List.dropWhile_cons, hp] using ih h'
    · simpa [List.dropWhile_cons, hp] using h

theorem headNonWs_pyStripL (l : List Char) : headNonWs (pyStripL l) = true := by
  unfold pyStripL
  rw [headNonWs_reverse]
  apply lastNonWs_dropWhile
  rw [← headNonWs_reverse ((l.dropWhile isWs).reverse), List.reverse_reverse]
  exact headNonWs_dropWhile l

theorem lastNonWs_pyStripL (l : List Char) : lastNonWs (pyStripL l) = true := by
  unfold pyStripL
  rw [← headNonWs_reverse, List.reverse_reverse]
  exact headNonWs_dropWhile _

theorem headNonWs_collapseWs (l : List Char) (h : headNonWs l = true) :
    headNonWs (collapseWs l) = true := by
  cases l with
  | nil => rfl
  | cons c rest =>
    have : isWs c = false := by simpa [headNonWs] using h
    simp [collapseWs, collapseGo, this, headNonWs]

theorem pyStripL_eq_self (m : List Char) (h1 : headNonWs m = true) (h2 : lastNonWs m = true) :
    pyStripL m = m := by
  unfold pyStripL
  rw [dropWhile_eq_self_of_headNonWs m h1]
  have : m.reverse.dropWhile isWs = m.reverse := by
    apply dropWhile_eq_self_of_headNonWs
    rw [headNonWs_reverse]
    exact h2
  rw [this, List.reverse_reverse]

theorem stripBracesGo_id (l : List Char) (fuel : Nat)
    (h : ∀ i, matchBraces (l.drop i) = Option.none) : stripBracesGo fuel l = l := by
  induction l generalizing fuel with
  | nil => cases fuel <;> rfl
  | cons c rest ih =>
    cases fuel with
    | zero => rfl
    | succ n =>
      have h0 : matchBraces (c :: rest) = Option.none := by simpa using h 0
      have hrest : ∀ i, matchBraces (rest.drop i) = Option.none := by
        intro i
        simpa [List.drop_succ_cons] using h (i + 1)
      simp only [stripBracesGo, h0]
      rw [ih n hrest]

/-! ## Claim C7: idempotence of `trim` -/

/-- C7 (counterexample): `trim` is not idempotent.  Removing the embedded
paragraph marker from `"<<p>p>"` splices the remaining characters into a new
marker, so a second application removes it too. -/
theorem trim_not_idempotent :
    trim (trim "<<p>p>") ≠ trim "<<p>p>"
      ∧ trim "<<p>p>" = "<p>"
      ∧ trim (trim "<<p>p>") = "" := by
  refine ⟨by decide, by decide, by decide⟩

/-- C7 (amended): `trim (trim x) = trim x` holds for every string `x` whose
trimmed form contains no remaining paragraph-wrapper marker, i.e. whenever the
marker-removal pass leaves `trim x` unchanged; in general idempotence fails
because removing a marker can create a new one. -/
theorem trim_idempotent_on_marker_free (x : String)
    (h : removeP (trim x).data = (trim x).data) :
    trim (trim x) = trim x := by
  have h1 : trim (trim x) = ⟨collapseWs (pyStripL (removeP (trim x).data))⟩ := rfl
  have h2 : (trim x).data = collapseWs (pyStripL (removeP x.data)) := rfl
  rw [h1, h, h2]
  have h3 : pyStripL (collapseWs (pyStripL (removeP x.data)))
      = collapseWs (pyStripL (removeP x.data)) := by
    apply pyStripL_eq_self
    · exact headNonWs_collapseWs _ (headNonWs_pyStripL _)
    · exact lastNonWs_collapseGo _ false (lastNonWs_pyStripL _)
  rw [h3, collapseWs_idem]
  rfl

/-- C7 (witness): the amended idempotence applied to the concrete string
`"a  b"`, whose trimmed form is free of paragraph markers. -/
theorem trim_idempotent_on_marker_free_witness :
    removeP (trim "a  b").data = (trim "a  b").data
      ∧ trim (trim "a  b") = trim "a  b" :=
  ⟨by decide, trim_idempotent_on_marker_free "a  b" (by decide)⟩

/-! ## Claim C8: `strip_braces` as a no-op -/

/-- C8 (counterexample): `strip_braces` does not only remove a trailing
parenthesized suffix: `"foo (a) bar"` has no parenthesized suffix, yet the
substitution removes the inner ` (a)` segment. -/
theorem strip_braces_removes_inner_parens :
    hasParenSuffix "foo (a) bar" = false
      ∧ strip_braces "foo (a) bar" = "foo bar"
      ∧ strip_braces "foo (a) bar" ≠ "foo (a) bar" := by
  refine ⟨by decide, by decide, by decide⟩

/-- C8 (amended): `strip_braces` removes every whitespace-preceded
parenthesized segment, not only a trailing one; `strip_braces s = s` holds
whenever `s` contains no `RE_BRACES` match anywhere, i.e. when no position of
`s` starts a parenthesized segment. -/
theorem strip_braces_noop_without_parens (s : String)
    (h : ∀ i < s.data.length, matchBraces (s.data.drop i) = Option.none) :
    strip_braces s = s := by
  have h' : ∀ i, matchBraces (s.data.drop i) = Option.none := by
    intro i
    by_cases hi : i < s.data.length
    · exact h i hi
    · have hd : s.data.drop i = [] := List.drop_eq_nil_of_le (le_of_not_lt hi)
      rw [hd]
      rfl
  unfold strip_braces
  rw [stripBracesGo_id s.data s.data.length h']

/-- C8 (witness): the no-op case applied to the concrete string `"foobar"`,
which contains no parenthesized segment. -/
theorem strip_braces_noop_without_parens_witness :
    (∀ i < ("foobar" : String).data.length,
        matchBraces (("foobar" : String).data.drop i) = Option.none)
      ∧ strip_braces "foobar" = "foobar" :=
  ⟨by decide, strip_braces_noop_without_parens "foobar" (by decide)⟩

/-! ## Claim C6: cross-reference precedence in `Subject.xref` -/

/-- C6: for every non-empty identifier, `xref` classifies by set membership in
the fixed precedence order class, function, method, property, plain fallback;
an identifier in both the class set and the function set is classified as a
class, and the plain fallback emits the bare escaped identifier. -/
theorem Subject.xref_precedence (d : Directive) (link : String) (h : link ≠ "") :
    (link ∈ d.classes → Subject.xref d link = ":php:class:`" ++ bs link ++ "`")
      ∧ (link ∉ d.classes → link ∈ d.functions →
          Subject.xref d link = ":php:func:`" ++ bs link ++ "`")
      ∧ (link ∉ d.classes → link ∉ d.functions → link ∈ d.methods →
          Subject.xref d link = ":php:meth:`" ++ bs link ++ "`")
      ∧ (link ∉ d.classes → link ∉ d.functions → link ∉ d.methods → link ∈ d.properties →
          Subject.xref d link = ":php:attr:`" ++ bs link ++ "`")
      ∧ (link ∉ d.classes → link ∉ d.functions → link ∉ d.methods → link ∉ d.properties →
          Subject.xref d link = bs link) := by
  refine ⟨?_, ?_, ?_, ?_, ?_⟩
  · intro h1
    unfold Subject.xref
    rw [if_pos h, if_pos h1, if_pos (show ("php:class" : String) ≠ "ref" by decide)]
    congr 1
  · intro h1 h2
    unfold Subject.xref
    rw [if_pos h, if_neg h1, if_pos h2, if_pos (show ("php:func" : String) ≠ "ref" by decide)]
    congr 1
  · intro h1 h2 h3
    unfold Subject.xref
    rw [if_pos h, if_neg h1, if_neg h2, if_pos h3,
      if_pos (show ("php:meth" : String) ≠ "ref" by decide)]
    congr 1
  · intro h1 h2 h3 h4
    unfold Subject.xref
    rw [if_pos h, if_neg h1, if_neg h2, if_neg h3, if_pos h4,
      if_pos (show ("php:attr" : String) ≠ "ref" by decide)]
    congr 1
  · intro h1 h2 h3 h4
    unfold Subject.xref
    rw [if_pos h, if_neg h1, if_neg h2, if_neg h3, if_neg h4,
      if_neg (show ¬ ("ref" : String) ≠ "ref" by decide)]

/-- C6 (witness): the identifier `Foo` sits in both the class set and the
function set of the fixture directive and is classified as a class. -/
theorem Subject.xref_precedence_witness :
    "Foo" ∈ exDirectiveXref.classes ∧ "Foo" ∈ exDirectiveXref.functions
      ∧ Subject.xref exDirectiveXref "Foo" = ":php:class:`Foo`" := by
  refine ⟨by decide, by decide, ?_⟩
  rw [(Subject.xref_precedence exDirectiveXref "Foo" (by decide)).1 (by decide)]
  decide

/-! ## Claim C10: falsy directive options fall through to the configuration -/

/-- C10: `get_opt` combines the directive-level value and the build-wide value
with Python `or`, so a falsy directive value (absent option, `False`, empty
string or empty list) always yields the configuration value; consequently a
truthy build-wide setting cannot be overridden by a falsy directive value. -/
theorem AutoDirective.get_opt_falsy_fallthrough (name : String) (dopt copt : PyVal)
    (h : truthy dopt = false) :
    getOptF dopt copt = copt
      ∧ getOpt name dopt copt false = .ok copt
      ∧ (truthy copt = true → truthy (getOptF dopt copt) = true) := by
  have h1 : getOptF dopt copt = copt := by
    unfold getOptF pyOr
    rw [h]
    simp
  refine ⟨h1, ?_, ?_⟩
  · unfold getOpt
    rw [h1]
    simp
  · intro hc
    rw [h1]
    exact hc

/-- C10 (witness): an explicit `False` at the directive level does not
override a `True` build-wide setting. -/
theorem AutoDirective.get_opt_falsy_fallthrough_witness :
    truthy (PyVal.bool false) = false
      ∧ getOptF (PyVal.bool false) (PyVal.bool true) = PyVal.bool true :=
  ⟨by decide,
    (AutoDirective.get_opt_falsy_fallthrough "members" (PyVal.bool false)
      (PyVal.bool true) (by decide)).1⟩

/-! ## Claim C1: the missing `required` check for `structure_xml` -/

/-- C1: `AutoDirective.run` fetches `structure_xml` through `get_opt` without
`required = True`, so with the option empty at both levels no `AutoPHPDocError`
is raised and the empty string is returned (the code then attempts
`etree.parse ('')`); the required-option error — which would name the option
and the build-wide setting — exists in `get_opt` but only behind the
`required` flag that the call never sets. -/
theorem AutoDirective.structure_xml_not_required_in_run :
    AutoDirective.runStructureXml exDirectiveEmpty = .ok (.str "")
      ∧ getOpt "structure_xml" (.str "") (.str "") true =
          .error (":structure_xml: option required in directive "
            ++ "(or set autophpdoc_structure_xml in conf.py.)") := by
  refine ⟨by decide, by decide⟩

/-! ## Claim C4: namespace deduplication in `append_ns` -/

/-- C4: the first rendering of a namespace emits the declaration line without
a no-index marker and registers the namespace; every rendering of an
already-seen namespace emits the declaration line followed by the no-index
marker line and leaves the registry unchanged, so after a first rendering
every subsequent rendering of the same namespace is marked no-index. -/
theorem Subject.append_ns_dedup (p : PNode) (indent : Nat) (seen : List String) (c : Content) :
    (p.getNamespace ∉ seen →
        Subject.appendNs p indent seen c =
          (p.getNamespace :: seen,
            Subject.nl (Subject.append p.getFilename p.getLineno indent
              (".. php:namespace:: " ++ p.getNamespace) c)))
      ∧ (p.getNamespace ∈ seen →
          Subject.appendNs p indent seen c =
            (seen,
              Subject.nl (Subject.append p.getFilename p.getLineno indent "   :noindex:"
                (Subject.append p.getFilename p.getLineno indent
                  (".. php:namespace:: " ++ p.getNamespace) c))))
      ∧ (p.getNamespace ∉ seen → ∀ (q : PNode) (ind2 : Nat) (c2 : Content),
          q.getNamespace = p.getNamespace →
            Subject.appendNs q ind2 (Subject.appendNs p indent seen c).1 c2 =
              ((Subject.appendNs p indent seen c).1,
                Subject.nl (Subject.append q.getFilename q.getLineno ind2 "   :noindex:"
                  (Subject.append q.getFilename q.getLineno ind2
                    (".. php:namespace:: " ++ q.getNamespace) c2)))) := by
  have hin : ∀ (r : PNode) (ind : Nat) (sn : List String) (cc : Content),
      r.getNamespace ∈ sn →
        Subject.appendNs r ind sn cc =
          (sn, Subject.nl (Subject.append r.getFilename r.getLineno ind "   :noindex:"
            (Subject.append r.getFilename r.getLineno ind
              (".. php:namespace:: " ++ r.getNamespace) cc))) := by
    intro r ind sn cc hm
    unfold Subject.appendNs
    rw [if_pos hm]
  have hout : ∀ (r : PNode) (ind : Nat) (sn : List String) (cc : Content),
      r.getNamespace ∉ sn →
        Subject.appendNs r ind sn cc =
          (r.getNamespace :: sn, Subject.nl (Subject.append r.getFilename r.getLineno ind
            (".. php:namespace:: " ++ r.getNamespace) cc)) := by
    intro r ind sn cc hm
    unfold Subject.appendNs
    rw [if_neg hm]
  refine ⟨hout p indent seen c, hin p indent seen c, ?_⟩
  intro h q ind2 c2 hq
  rw [hout p indent seen c h]
  exact hin q ind2 _ c2 (by rw [hq]; exact List.mem_cons_self _ _)

/-- C4 (witness): rendering the fixture constant's namespace `NS` against an
empty registry registers it and emits no no-index marker. -/
theorem Subject.append_ns_dedup_witness :
    exConstant.getNamespace ∉ ([] : List String)
      ∧ Subject.appendNs exConstant 0 [] [] =
          (exConstant.getNamespace :: [],
            Subject.nl (Subject.append exConstant.getFilename exConstant.getLineno 0
              (".. php:namespace:: " ++ exConstant.getNamespace) [])) :=
  ⟨by decide, (Subject.append_ns_dedup exConstant 0 [] []).1 (by decide)⟩

/-! ## Claim C9: provenance tags on emitted lines -/

/-- C9 (counterexample): not every line of the emitted buffer carries a
provenance source tag: the blank separator lines emitted by `Subject.nl`
carry the empty source string, which is no `sourceTag` (every `sourceTag` is
non-empty). -/
theorem Subject.nl_blank_line_untagged :
    ¬ (∀ e ∈ Subject.nl ([] : Content), ∃ fn ln, e.2 = sourceTag fn ln) := by
  intro hall
  obtain ⟨fn, ln, htag⟩ := hall ("", "") (by simp [Subject.nl])
  have h2 := congrArg String.length htag
  simp only [sourceTag, String.length_append] at h2
  have e0 : ("" : String).length = 0 := rfl
  have e2 : (":" : String).length = 1 := rfl
  rw [e0, e2] at h2
  omega

/-- C9 (amended): every line appended through `Subject.append` carries the
source tag `file:line:<autophpdoc>` built from the node's ancestor file path
(defaulting to "filename unknown") and its line attribute (falling back to
the docblock's line, then 0); the blank separator lines of `Subject.nl`,
however, carry an empty source tag. -/
theorem Subject.append_provenance (fn : String) (ln : Nat) (ind : Nat) (text : String)
    (c : Content) :
    (∀ e ∈ (Subject.append fn ln ind text c).drop c.length,
        ∃ i, e.2 = sourceTag fn (ln + i))
      ∧ Subject.nl c = c ++ [("", "")]
      ∧ (∀ p : PNode, p.filename = Option.none → p.getFilename = "filename unknown")
      ∧ (∀ p : PNode, p.line = Option.none → p.docblock = Option.none → p.getLineno = 0)
      ∧ (∀ (p : PNode) (n : Nat), p.line = some n → p.getLineno = n) := by
  refine ⟨?_, rfl, ?_, ?_, ?_⟩
  · intro e he
    unfold Subject.append at he
    rw [List.drop_left] at he
    obtain ⟨⟨i, s⟩, _, rfl⟩ := List.mem_map.mp he
    exact ⟨i, rfl⟩
  · intro p h
    unfold PNode.getFilename
    rw [h]
    rfl
  · intro p h1 h2
    unfold PNode.getLineno
    rw [h1, h2]
    rfl
  · intro p n h
    unfold PNode.getLineno
    rw [h]

/-- C9 (witness): the blank line emitted by `nl` and the filename default,
from the amended theorem at concrete inputs. -/
theorem Subject.append_provenance_witness :
    Subject.nl ([] : Content) = [] ++ [("", "")]
      ∧ ({ exConstant with filename := Option.none } : PNode).getFilename
          = "filename unknown" :=
  ⟨(Subject.append_provenance "f.php" 7 0 "x" []).2.1,
    (Subject.append_provenance "f.php" 7 0 "x" []).2.2.1 _ rfl⟩

/-! ## Claim C3: degradation on missing optional data -/

/-- C3 (counterexample): rendering a `param` tag whose `description` attribute
is absent raises an error (`trim` rejects the `None` returned by
`node.get ('description')`), so rendering a node with an absent optional field
is not always error-free. -/
theorem PHPArgument.run_absent_description_errors :
    PHPArgument.run
      { filename := some "src/f.php", line := some 10, type := some "string"
        varName := some "$x", description := Option.none } 0 []
      = Except.error () := by
  decide

/-- C3 (amended): optional fields read through `xpath_str` (descriptions,
types, values, namespaces) default to the empty string and never error, and a
`throws` tag's absent description is guarded to `''`; but the attributes of
`param`, `return` and `see` tags are passed to `trim` unguarded, so an absent
`param` description (or an absent `see` link) raises an error instead of
rendering. -/
theorem missing_data_degradation (d : Directive) :
    (∀ p : PNode, p.docblock = Option.none →
        p.getDescription = "" ∧ p.getLongDescription = "" ∧ p.getType = "")
      ∧ (∀ p : PNode, p.nsAttr = Option.none → p.getNamespace = "")
      ∧ (∀ p : PNode, p.value = Option.none → p.getValue = "")
      ∧ (∀ (f : Option String) (l : Option Nat) (ty : String) (ind : Nat) (c : Content),
          PHPThrows.run d
            { filename := f, line := l, type := some ty, description := Option.none } ind c
            = .ok (Subject.append (tagFilename f) (tagLineno l) ind
                (":raises " ++ Subject.xref d (trim ty) ++ ": " ++ trim "") c))
      ∧ (∀ (f : Option String) (l : Option Nat) (ty v : String) (ind : Nat) (c : Content),
          PHPArgument.run
            { filename := f, line := l, type := some ty, varName := some v
              description := Option.none } ind c
            = .error ())
      ∧ (∀ (f : Option String) (l : Option Nat) (ds : String) (ind : Nat) (c : Content),
          PHPSee.run d
            { filename := f, line := l, description := some ds, link := Option.none } ind c
            = .error ()) := by
  refine ⟨?_, ?_, ?_, ?_, ?_, ?_⟩
  · intro p h
    refine ⟨?_, ?_, ?_⟩
    · unfold PNode.getDescription
      rw [h]
      rfl
    · unfold PNode.getLongDescription
      rw [h]
      rfl
    · unfold PNode.getType
      rw [h]
      rfl
  · intro p h
    unfold PNode.getNamespace
    rw [h]
    rfl
  · intro p h
    unfold PNode.getValue
    rw [h]
    rfl
  · intro f l ty ind c
    rfl
  · intro f l ty v ind c
    rfl
  · intro f l ds ind c
    rfl

/-- C3 (witness): the amended degradation at concrete inputs: a docblock-less
constant yields empty description, and a concrete `param` tag without a
description errors. -/
theorem missing_data_degradation_witness :
    exConstant.getDescription = ""
      ∧ PHPArgument.run
          { filename := some "src/g.php", line := some 3, type := some "int"
            varName := some "$n", description := Option.none } 1 []
          = .error () :=
  ⟨((missing_data_degradation exDirectiveTrue).1 exConstant rfl).1,
    (missing_data_degradation exDirectiveTrue).2.2.2.2.1
      (some "src/g.php") (some 3) "int" "$n" 1 []⟩

/-! ## Congruence of the renderers in the cross-reference sets -/

theorem xref_sets_congr (d₁ d₂ : Directive) (h1 : d₁.classes = d₂.classes)
    (h2 : d₁.functions = d₂.functions) (h3 : d₁.methods = d₂.methods)
    (h4 : d₁.properties = d₂.properties) : Subject.xref d₁ = Subject.xref d₂ := by
  funext link
  unfold Subject.xref
  rw [h1, h2, h3, h4]

theorem see_run_congr (d₁ d₂ : Directive) (h1 : d₁.classes = d₂.classes)
    (h2 : d₁.functions = d₂.functions) (h3 : d₁.methods = d₂.methods)
    (h4 : d₁.properties = d₂.properties) : PHPSee.run d₁ = PHPSee.run d₂ := by
  funext t ind c
  unfold PHPSee.run
  rw [xref_sets_congr d₁ d₂ h1 h2 h3 h4]

theorem appendDesc_congr (d₁ d₂ : Directive) (h1 : d₁.classes = d₂.classes)
    (h2 : d₁.functions = d₂.functions) (h3 : d₁.methods = d₂.methods)
    (h4 : d₁.properties = d₂.properties) :
    Subject.appendDesc d₁ = Subject.appendDesc d₂ := by
  funext fn ln ind db c
  unfold Subject.appendDesc
  rw [see_run_congr d₁ d₂ h1 h2 h3 h4]

/-! ## Claim C2: the `members` allow-list -/

/-- C2 (counterexample): with `members` supplied as the allow-list `["FOO"]`
the module rendering differs from the `members = True` rendering (the
constant child is not rendered), so an allow-list is not identical to the
boolean-true case. -/
theorem PHPModule.run_members_list_differs :
    PHPModule.run exDirectiveList exModule 0 [] []
      ≠ PHPModule.run exDirectiveTrue exModule 0 [] [] := by
  decide

/-- C2 (amended): a `members` allow-list does not trigger recursion at all:
the source tests the resolved option with `is True`, which a list never
satisfies, so the rendering equals the `members = False` case (child
constants, functions and classes are skipped). -/
theorem PHPModule.run_members_list_no_recursion (d : Directive) (l : List String)
    (m : FileNode) (ind : Nat) (seen : List String) (c : Content)
    (h : getOptF d.opt_members d.conf_members = PyVal.list l) :
    PHPModule.run d m ind seen c =
      PHPModule.run
        { d with opt_members := PyVal.bool false, conf_members := PyVal.bool false }
        m ind seen c := by
  have hd : Subject.appendDesc
      { d with opt_members := PyVal.bool false, conf_members := PyVal.bool false }
      = Subject.appendDesc d :=
    appendDesc_congr _ _ rfl rfl rfl rfl
  have hcond : getOptF
      ({ d with opt_members := PyVal.bool false, conf_members := PyVal.bool false } : Directive).opt_members
      ({ d with opt_members := PyVal.bool false, conf_members := PyVal.bool false } : Directive).conf_members
      = PyVal.bool false := rfl
  simp [PHPModule.run, h, hd, hcond]

/-- C2 (witness): the fixture directive resolves `members` to the allow-list
`["FOO"]`, and its module rendering equals the members-false rendering. -/
theorem PHPModule.run_members_list_no_recursion_witness :
    getOptF exDirectiveList.opt_members exDirectiveList.conf_members = PyVal.list ["FOO"]
      ∧ PHPModule.run exDirectiveList exModule 0 [] [] =
          PHPModule.run
            { exDirectiveList with opt_members := PyVal.bool false, conf_members := PyVal.bool false }
            exModule 0 [] [] :=
  ⟨by decide,
    PHPModule.run_members_list_no_recursion exDirectiveList ["FOO"] exModule 0 [] []
      (by decide)⟩

/-! ## Lemmas on the selection loop -/

instance : IsTotal (String × FileNode) keyLE := ⟨fun a b => le_total a.1 b.1⟩

instance : IsTrans (String × FileNode) keyLE := ⟨fun _ _ _ h1 h2 => le_trans h1 h2⟩

theorem dictInsert_keys (dct : List (String × FileNode)) (k : String) (v : FileNode) :
    (dictInsert dct k v).map Prod.fst =
      if k ∈ dct.map Prod.fst then dct.map Prod.fst else dct.map Prod.fst ++ [k] := by
  unfold dictInsert
  have hany : (dct.any (fun e => e.1 = k)) = true ↔ k ∈ dct.map Prod.fst := by
    rw [List.any_eq_true]
    constructor
    · rintro ⟨e, he, hek⟩
      exact List.mem_map.mpr ⟨e, he, of_decide_eq_true hek⟩
    · rintro hm
      obtain ⟨e, he, hek⟩ := List.mem_map.mp hm
      exact ⟨e, he, decide_eq_true hek⟩
  by_cases h : k ∈ dct.map Prod.fst
  · rw [if_pos (hany.mpr h), if_pos h, List.map_map]
    apply List.map_congr_left
    intro e _
    by_cases he : e.1 = k
    · simp [he]
    · simp [he]
  · rw [if_neg (fun hc => h (hany.mp hc)), if_neg h, List.map_append]
    rfl

theorem dictInsert_keys_nodup (dct : List (String × FileNode)) (k : String) (v : FileNode)
    (h : (dct.map Prod.fst).Nodup) : ((dictInsert dct k v).map Prod.fst).Nodup := by
  rw [dictInsert_keys]
  by_cases hm : k ∈ dct.map Prod.fst
  · rwa [if_pos hm]
  · rw [if_neg hm]
    exact List.Nodup.append h (List.nodup_singleton k)
      (fun a ha hb => hm (by rwa [List.mem_singleton.mp hb] at ha))

theorem dictInsert_mem (dct : List (String × FileNode)) (k k' : String) (v v' : FileNode) :
    (k', v') ∈ dictInsert dct k v ↔
      (k' = k ∧ v' = v) ∨ (k' ≠ k ∧ (k', v') ∈ dct) := by
  unfold dictInsert
  by_cases h : dct.any (fun e => e.1 = k)
  · obtain ⟨e0, he0, he0k⟩ := List.any_eq_true.mp h
    have he0k' : e0.1 = k := of_decide_eq_true he0k
    rw [if_pos h]
    constructor
    · intro hm
      obtain ⟨e, he, hee⟩ := List.mem_map.mp hm
      by_cases hek : e.1 = k
      · rw [if_pos hek] at hee
        injection hee with h1 h2
        exact Or.inl ⟨h1.symm, h2.symm⟩
      · rw [if_neg hek] at hee
        subst hee
        exact Or.inr ⟨by simpa using hek, he⟩
    · rintro (⟨rfl, rfl⟩ | ⟨hne, hin⟩)
      · exact List.mem_map.mpr ⟨e0, he0, by rw [if_pos he0k']⟩
      · exact List.mem_map.mpr ⟨(k', v'), hin, by rw [if_neg (by simpa using hne)]⟩
  · have hk : k ∉ dct.map Prod.fst := by
      intro hm
      apply h
      obtain ⟨e, he, hek⟩ := List.mem_map.mp hm
      exact List.any_eq_true.mpr ⟨e, he, decide_eq_true hek⟩
    rw [if_neg h, List.mem_append, List.mem_singleton]
    constructor
    · rintro (hin | heq)
      · refine Or.inr ⟨?_, hin⟩
        intro hkk
        exact hk (List.mem_map.mpr ⟨(k', v'), hin, hkk⟩)
      · exact Or.inl ⟨((Prod.mk.injEq _ _ _ _).mp heq).1, ((Prod.mk.injEq _ _ _ _).mp heq).2⟩
    · rintro (⟨rfl, rfl⟩ | ⟨_, hin⟩)
      · exact Or.inr rfl
      · exact Or.inl hin

theorem foldl_dictInsert_keys (fs : List FileNode) (dct : List (String × FileNode)) (k : String) :
    (k ∈ ((fs.foldl (fun d f => dictInsert d (pathKey f) f) dct).map Prod.fst)) ↔
      (k ∈ dct.map Prod.fst ∨ ∃ f ∈ fs, pathKey f = k) := by
  induction fs generalizing dct with
  | nil => simp
  | cons f fs' ih =>
    rw [List.foldl_cons, ih]
    rw [dictInsert_keys]
    by_cases hm : pathKey f ∈ dct.map Prod.fst
    · rw [if_pos hm]
      constructor
      · rintro (h | h)
        · exact Or.inl h
        · exact Or.inr (by obtain ⟨g, hg, hgk⟩ := h; exact ⟨g, List.mem_cons_of_mem f hg, hgk⟩)
      · rintro (h | ⟨g, hg, hgk⟩)
        · exact Or.inl h
        · rcases List.mem_cons.mp hg with rfl | hg'
          · exact Or.inl (hgk ▸ hm)
          · exact Or.inr ⟨g, hg', hgk⟩
    · rw [if_neg hm, List.mem_append, List.mem_singleton]
      constructor
      · rintro ((h | h) | h)
        · exact Or.inl h
        · exact Or.inr ⟨f, List.mem_cons_self f fs', h.symm⟩
        · exact Or.inr (by obtain ⟨g, hg, hgk⟩ := h; exact ⟨g, List.mem_cons_of_mem f hg, hgk⟩)
      · rintro (h | ⟨g, hg, hgk⟩)
        · exact Or.inl (Or.inl h)
        · rcases List.mem_cons.mp hg with rfl | hg'
          · exact Or.inl (Or.inr hgk.symm)
          · exact Or.inr ⟨g, hg', hgk⟩

theorem foldl_dictInsert_nodup (fs : List FileNode) (dct : List (String × FileNode))
    (h : (dct.map Prod.fst).Nodup) :
    (((fs.foldl (fun d f => dictInsert d (pathKey f) f) dct).map Prod.fst)).Nodup := by
  induction fs generalizing dct with
  | nil => exact h
  | cons f fs' ih =>
    rw [List.foldl_cons]
    exact ih _ (dictInsert_keys_nodup _ _ _ h)

theorem foldl_dictInsert_getLast (fs : List FileNode) (dct : List (String × FileNode))
    (k : String) (v : FileNode)
    (h : (k, v) ∈ fs.foldl (fun d f => dictInsert d (pathKey f) f) dct) :
    (fs.filter (fun f => pathKey f = k)).getLast? = some v
      ∨ ((fs.filter (fun f => pathKey f = k)) = [] ∧ (k, v) ∈ dct) := by
  induction fs generalizing dct with
  | nil => exact Or.inr ⟨rfl, h⟩
  | cons f fs' ih =>
    rw [List.foldl_cons] at h
    rcases ih (dictInsert dct (pathKey f) f) h with hL | ⟨hE, hM⟩
    · left
      rw [List.filter_cons]
      by_cases hp : pathKey f = k
      · rw [if_pos (decide_eq_true hp)]
        cases hF : fs'.filter (fun f => pathKey f = k) with
        | nil => rw [hF] at hL; cases hL
        | cons y ys =>
          rw [List.getLast?_cons_cons]
          rw [hF] at hL
          exact hL
      · rw [if_neg (by simpa using hp)]
        exact hL
    · rcases (dictInsert_mem dct (pathKey f) k f v).mp hM with ⟨hk, hv⟩ | ⟨hne, hIn⟩
      · left
        rw [List.filter_cons, if_pos (decide_eq_true hk.symm), hE]
        rw [hv]
        rfl
      · right
        refine ⟨?_, hIn⟩
        rw [List.filter_cons, if_neg (by simpa using fun hc => hne hc.symm)]
        exact hE

theorem buildDict_getLast (fs : List FileNode) (k : String) (v : FileNode)
    (h : (k, v) ∈ buildDict fs) :
    (fs.filter (fun f => pathKey f = k)).getLast? = some v := by
  rcases foldl_dictInsert_getLast fs [] k v h with hL | ⟨_, hM⟩
  · exact hL
  · cases hM

theorem buildDict_keys_iff (fs : List FileNode) (k : String) :
    k ∈ (buildDict fs).map Prod.fst ↔ ∃ f ∈ fs, pathKey f = k := by
  unfold buildDict
  rw [foldl_dictInsert_keys]
  simp

theorem buildDict_nodup (fs : List FileNode) : ((buildDict fs).map Prod.fst).Nodup :=
  foldl_dictInsert_nodup fs [] (by simp)

theorem sortEntries_perm (dct : List (String × FileNode)) :
    List.Perm (sortEntries dct) dct :=
  List.perm_insertionSort keyLE dct

theorem sortEntries_sorted (dct : List (String × FileNode)) :
    List.Sorted keyLE (sortEntries dct) :=
  List.sorted_insertionSort keyLE dct

theorem visitFiles_cons_mem (p : String) (n : FileNode) (rest : List (String × FileNode))
    (visited : List String) (h : p ∈ visited) :
    visitFiles ((p, n) :: rest) visited = visitFiles rest visited := by
  simp [visitFiles, h]

theorem visitFiles_cons_not_mem (p : String) (n : FileNode) (rest : List (String × FileNode))
    (visited : List String) (h : p ∉ visited) :
    visitFiles ((p, n) :: rest) visited =
      ((visitFiles rest (p :: visited)).1, (p, n) :: (visitFiles rest (p :: visited)).2) := by
  simp [visitFiles, h]

theorem visitFiles_sublist (entries : List (String × FileNode)) (visited : List String) :
    List.Sublist (visitFiles entries visited).2 entries := by
  induction entries generalizing visited with
  | nil => simp [visitFiles]
  | cons e rest ih =>
    obtain ⟨p, n⟩ := e
    by_cases h : p ∈ visited
    · rw [visitFiles_cons_mem p n rest visited h]
      exact List.Sublist.cons _ (ih visited)
    · rw [visitFiles_cons_not_mem p n rest visited h]
      exact List.Sublist.cons₂ _ (ih (p :: visited))

theorem visitFiles_visited_iff (entries : List (String × FileNode)) :
    ∀ (visited : List String) (x : String),
      x ∈ (visitFiles entries visited).1 ↔
        x ∈ visited ∨ x ∈ (visitFiles entries visited).2.map Prod.fst := by
  induction entries with
  | nil => intro visited x; simp [visitFiles]
  | cons e rest ih =>
    intro visited x
    obtain ⟨p, n⟩ := e
    by_cases h : p ∈ visited
    · rw [visitFiles_cons_mem p n rest visited h]
      exact ih visited x
    · rw [visitFiles_cons_not_mem p n rest visited h]
      constructor
      · intro hx
        rcases (ih (p :: visited) x).mp hx with hv | ho
        · rcases List.mem_cons.mp hv with rfl | hv'
          · exact Or.inr (by simp)
          · exact Or.inl hv'
        · exact Or.inr (by simp only [List.map_cons, List.mem_cons]; exact Or.inr ho)
      · intro hx
        apply (ih (p :: visited) x).mpr
        rcases hx with hv | ho
        · exact Or.inl (List.mem_cons_of_mem _ hv)
        · rw [List.map_cons] at ho
          rcases List.mem_cons.mp ho with rfl | ho'
          · exact Or.inl (List.mem_cons_self _ _)
          · exact Or.inr ho'

theorem visitFiles_fresh (entries : List (String × FileNode)) :
    ∀ (visited : List String), ∀ e ∈ (visitFiles entries visited).2, e.1 ∉ visited := by
  induction entries with
  | nil => intro visited e he; simp [visitFiles] at he
  | cons q rest ih =>
    intro visited e he
    obtain ⟨p, n⟩ := q
    by_cases h : p ∈ visited
    · rw [visitFiles_cons_mem p n rest visited h] at he
      exact ih visited e he
    · rw [visitFiles_cons_not_mem p n rest visited h] at he
      rcases List.mem_cons.mp he with rfl | he'
      · exact h
      · intro hv
        exact ih (p :: visited) e he' (List.mem_cons_of_mem _ hv)

theorem visitFiles_nodup (entries : List (String × FileNode)) :
    ∀ (visited : List String), ((visitFiles entries visited).2.map Prod.fst).Nodup := by
  induction entries with
  | nil => intro visited; simp [visitFiles]
  | cons q rest ih =>
    intro visited
    obtain ⟨p, n⟩ := q
    by_cases h : p ∈ visited
    · rw [visitFiles_cons_mem p n rest visited h]
      exact ih visited
    · rw [visitFiles_cons_not_mem p n rest visited h]
      rw [List.map_cons]
      refine List.nodup_cons.mpr ⟨?_, ih (p :: visited)⟩
      intro hp
      obtain ⟨e, he, hfst⟩ := List.mem_map.mp hp
      exact visitFiles_fresh rest (p :: visited) e he
        (by rw [hfst]; exact List.mem_cons_self _ _)

theorem visitFiles_complete (entries : List (String × FileNode)) :
    ∀ (visited : List String) (p : String) (n : FileNode),
      (p, n) ∈ entries → p ∉ visited →
        p ∈ (visitFiles entries visited).2.map Prod.fst := by
  induction entries with
  | nil => intro visited p n h _; cases h
  | cons q rest ih =>
    intro visited p n hmem hp
    obtain ⟨q1, q2⟩ := q
    by_cases h : q1 ∈ visited
    · rw [visitFiles_cons_mem q1 q2 rest visited h]
      rcases List.mem_cons.mp hmem with heq | hmem'
      · injection heq with h1 _
        exact absurd (h1 ▸ h) hp
      · exact ih visited p n hmem' hp
    · rw [visitFiles_cons_not_mem q1 q2 rest visited h]
      rw [List.map_cons]
      by_cases hpq : p = q1
      · exact hpq ▸ List.mem_cons_self _ _
      · apply List.mem_cons_of_mem
        rcases List.mem_cons.mp hmem with heq | hmem'
        · injection heq with h1 _
          exact absurd h1 hpq
        · exact ih (q1 :: visited) p n hmem'
            (fun hc => (List.mem_cons.mp hc).elim hpq hp)

theorem processPattern_nodup (t : String → Bool) (files : List FileNode)
    (visited : List String) : ((processPattern t files visited).2.map Prod.fst).Nodup := by
  unfold processPattern
  exact visitFiles_nodup _ _

theorem processPattern_fresh (t : String → Bool) (files : List FileNode)
    (visited : List String) : ∀ e ∈ (processPattern t files visited).2, e.1 ∉ visited := by
  unfold processPattern
  exact visitFiles_fresh _ _

theorem processPattern_sorted (t : String → Bool) (files : List FileNode)
    (visited : List String) : List.Sorted keyLE (processPattern t files visited).2 := by
  unfold processPattern
  exact List.Pairwise.sublist (visitFiles_sublist _ _) (sortEntries_sorted _)

theorem processPattern_getLast (t : String → Bool) (files : List FileNode)
    (visited : List String) (k : String) (v : FileNode)
    (h : (k, v) ∈ (processPattern t files visited).2) :
    ((files.filter (fun f => t (pathKey f))).filter
      (fun f => pathKey f = k)).getLast? = some v := by
  unfold processPattern at h
  have h1 : (k, v) ∈ sortEntries (buildDict (files.filter (fun f => t (pathKey f)))) :=
    (visitFiles_sublist _ _).subset h
  have h2 : (k, v) ∈ buildDict (files.filter (fun f => t (pathKey f))) :=
    (sortEntries_perm _).mem_iff.mp h1
  exact buildDict_getLast _ _ _ h2

theorem processPattern_complete (t : String → Bool) (files : List FileNode)
    (visited : List String) (f : FileNode) (hf : f ∈ files) (ht : t (pathKey f) = true)
    (hv : pathKey f ∉ visited) :
    pathKey f ∈ (processPattern t files visited).2.map Prod.fst := by
  unfold processPattern
  have h1 : pathKey f ∈ (buildDict (files.filter (fun g => t (pathKey g)))).map Prod.fst :=
    (buildDict_keys_iff _ _).mpr ⟨f, List.mem_filter.mpr ⟨hf, ht⟩, rfl⟩
  obtain ⟨e, he, hfst⟩ := List.mem_map.mp h1
  have he' : e ∈ sortEntries (buildDict (files.filter (fun g => t (pathKey g)))) :=
    (sortEntries_perm _).mem_iff.mpr he
  obtain ⟨e1, e2⟩ := e
  dsimp at hfst
  subst hfst
  exact visitFiles_complete _ visited _ e2 he' hv

theorem processPattern_visited_iff (t : String → Bool) (files : List FileNode)
    (visited : List String) (x : String) :
    x ∈ (processPattern t files visited).1 ↔
      x ∈ visited ∨ x ∈ (processPattern t files visited).2.map Prod.fst := by
  unfold processPattern
  exact visitFiles_visited_iff _ _ _

theorem processArgs_nodup_fresh (tests : List (String → Bool)) (files : List FileNode) :
    ∀ (visited : List String),
      ((processArgs tests files visited).2.map Prod.fst).Nodup
        ∧ (∀ x ∈ (processArgs tests files visited).2.map Prod.fst, x ∉ visited) := by
  induction tests with
  | nil =>
    intro visited
    constructor
    · simp [processArgs]
    · intro x hx
      simp [processArgs] at hx
  | cons t ts ih =>
    intro visited
    have heq : processArgs (t :: ts) files visited =
        ((processArgs ts files (processPattern t files visited).1).1,
          (processPattern t files visited).2
            ++ (processArgs ts files (processPattern t files visited).1).2) := rfl
    rw [heq]
    dsimp only
    rw [List.map_append]
    obtain ⟨ihN, ihF⟩ := ih (processPattern t files visited).1
    constructor
    · refine List.Nodup.append (processPattern_nodup t files visited) ihN ?_
      intro a ha hb
      have h1 : a ∈ (processPattern t files visited).1 :=
        (processPattern_visited_iff t files visited a).mpr (Or.inr ha)
      exact ihF a hb h1
    · intro x hx
      rcases List.mem_append.mp hx with hx1 | hx2
      · obtain ⟨e, he, hfst⟩ := List.mem_map.mp hx1
        exact hfst ▸ processPattern_fresh t files visited e he
      · intro hv
        have h1 : x ∈ (processPattern t files visited).1 :=
          (processPattern_visited_iff t files visited x).mpr (Or.inl hv)
        exact ihF x hx2 h1

/-! ## Claim C5: ordered, deduplicated file selection -/

/-- C5: the selection loop processes patterns in the given order (the segment
of the first pattern precedes the rest); within one pattern's match set the
path dictionary collapses duplicate paths to the last matching node and the
segment is sorted by path; a path already in the visited set is skipped, a
matching unvisited path is always rendered, and the overall rendered path list
has no duplicates — so every matched file is rendered at most once,
first-match-wins in pattern order. -/
theorem AutoDirective.run_selection (tests : List (String → Bool)) (files : List FileNode) :
    ((selectFiles tests files).map Prod.fst).Nodup
      ∧ (∀ (t : String → Bool) (ts : List (String → Bool)),
          selectFiles (t :: ts) files =
            (processPattern t files []).2
              ++ (processArgs ts files (processPattern t files []).1).2)
      ∧ (∀ (t : String → Bool) (visited : List String),
          List.Sorted keyLE (processPattern t files visited).2)
      ∧ (∀ (t : String → Bool) (visited : List String) (k : String) (v : FileNode),
          (k, v) ∈ (processPattern t files visited).2 →
            ((files.filter (fun f => t (pathKey f))).filter
              (fun f => pathKey f = k)).getLast? = some v)
      ∧ (∀ (t : String → Bool) (visited : List String),
          ∀ e ∈ (processPattern t files visited).2, e.1 ∉ visited)
      ∧ (∀ (t : String → Bool) (visited : List String) (f : FileNode),
          f ∈ files → t (pathKey f) = true → pathKey f ∉ visited →
            pathKey f ∈ (processPattern t files visited).2.map Prod.fst) :=
  ⟨(processArgs_nodup_fresh tests files []).1, fun _ _ => rfl,
    fun t visited => processPattern_sorted t files visited,
    fun t visited k v h => processPattern_getLast t files visited k v h,
    fun t visited => processPattern_fresh t files visited,
    fun t visited f hf ht hv => processPattern_complete t files visited f hf ht hv⟩

/-- C5 (witness): on the spec's fixture (patterns for exactly `src/a.php` and
for everything under `src/`, files `src/a.php` and `src/b.php`) the rendered
paths are duplicate-free and `src/a.php` is rendered in the first pattern's
segment. -/
theorem AutoDirective.run_selection_witness :
    ((selectFiles [exTest1, exTest2] [exFileA, exFileB]).map Prod.fst).Nodup
      ∧ pathKey exFileA ∈
          (processPattern exTest1 [exFileA, exFileB] []).2.map Prod.fst :=
  ⟨(AutoDirective.run_selection [exTest1, exTest2] [exFileA, exFileB]).1,
    (AutoDirective.run_selection [exTest1, exTest2] [exFileA, exFileB]).2.2.2.2.2 exTest1 []
      exFileA (by decide) (by decide) (by decide)⟩

end AutoPHPDoc
